import Mathlib

/-!
Verification of the sudoku game-session engine (`src/sudoku.py`).

The engine state of `SudokuApp` is embedded as the structure `AppState`:
the 81-cell board (`puzzle`, `solution`, `given_mask`), the text held by
the 81 entry widgets (`cells`, with `none` standing for an empty or
non-digit entry), the session score, the coin balance, the timestamp of
the last correct entry, the selected difficulty, and the persisted
progress (`unlocked`, `owned_skins`, `active_skin`).  Timestamps are
rationals; Python's `int(x)` truncation and `//` floor division are
modelled explicitly.  Presentation-only effects (labels, message boxes,
colors, the advisory clock) and the file I/O of `save_state` are outside
the state.  Randomness (`random.choice`) is modelled by an explicit
choice argument: the puzzle record picked by `new_game`, and a `pick`
oracle for `give_hint`.
-/

namespace Sudoku

/-- The three difficulty tiers, the closed set of values taken by the
`current_diff` combobox and the `unlocked` list. -/
inductive Tier where
  | easy
  | medium
  | hard
deriving DecidableEq, Repr

/-- The canonical tier ordering, `order = ["Easy", "Medium", "Hard"]` in `on_win`. -/
def order : List Tier := [Tier.easy, Tier.medium, Tier.hard]

/-- `order.index(diff)` of `on_win`. -/
def orderIdx : Tier → ℕ
  | Tier.easy => 0
  | Tier.medium => 1
  | Tier.hard => 2

/-- The completion-bonus table of `on_win`: `{"Easy": 20, "Medium": 40, "Hard": 60}`. -/
def bonusOf : Tier → ℤ
  | Tier.easy => 20
  | Tier.medium => 40
  | Tier.hard => 60

/-- The tier following `t` in `order`, if any: `order[i+1]` when `i+1 < len(order)`
for `i = order.index(t)` (lines 395-398 of `on_win`). -/
def successor (t : Tier) : Option Tier :=
  if orderIdx t + 1 < order.length then some (order.getD (orderIdx t + 1) Tier.easy)
  else none

/-- `parse_grid`: turn an 81-character digit string into a list of digits
(`int(ch)` per character). -/
def parse_grid (s : String) : List ℕ :=
  s.data.map (fun c => c.toNat - 48)

/-- Python `int(x)` on a float/rational: truncation toward zero. -/
def truncInt (q : ℚ) : ℤ :=
  if 0 ≤ q then ⌊q⌋ else ⌈q⌉

/-- `self.last_correct_time or now`: Python falsy coalescing — `None` and `0.0`
both give `now`. -/
def orNow (t : Option ℚ) (now : ℚ) : ℚ :=
  match t with
  | none => now
  | some v => if v = 0 then now else v

/-- A `(puzzle_string, solution_string)` pair after `parse_grid`, i.e. one
entry of the `PUZZLES` table. -/
structure PuzzleRecord where
  puzzle : List ℕ
  solution : List ℕ
deriving DecidableEq, Repr

/-- The `PUZZLES` table: fixed puzzle/solution pairs per tier. -/
def PUZZLES : Tier → List PuzzleRecord
  | Tier.easy =>
    [⟨parse_grid "530070000600195000098000060800060003400803001700020006060000280000419005000080079",
      parse_grid "534678912672195348198342567859761423426853791713924856961537284287419635345286179"⟩,
     ⟨parse_grid "040000000060105000009030070008302900700000004006708100010080600000406090000000050",
      parse_grid "541697832867145329239831476418362957753219864926758143314985672582476391697123548"⟩]
  | Tier.medium =>
    [⟨parse_grid "000260701680070090190004500820100040004602900050003028009300074040050036703018000",
      parse_grid "435269781682571493197834562826195347374682915951743628519326874248957136763418259"⟩,
     ⟨parse_grid "030000080006000107000009030040007500700060004003500070020100000904000600010000020",
      parse_grid "137645289496832157582719436249317568751968324863524971628153794974281653315476892"⟩]
  | Tier.hard =>
    [⟨parse_grid "000000907000420180000705026100904000050000040000507009920108000034059000507000000",
      parse_grid "812653947573492186496715326169934852258176943734527619925168734384259761567341298"⟩,
     ⟨parse_grid "300000000005009000200504000000700000000000030040000006000000105000030000000201000",
      parse_grid "397126584415389672286574319163798452872465931549812736638947125721653948954231867"⟩]

/-- The `SKIN_PRICES` table. -/
def SKIN_PRICES : List (String × ℤ) :=
  [("Ocean", 60), ("Sunset", 60), ("Forest", 60)]

/-- `SKIN_PRICES.get(name, 0)` as used by `open_shop`. -/
def priceOf (name : String) : ℤ :=
  ((SKIN_PRICES.lookup name).getD 0)

/-- The engine state of `SudokuApp`: board, widget texts, session stats and
persisted progress.  `cells` holds the entry-widget contents (`none` = empty
or non-digit text). -/
structure AppState where
  puzzle : List ℕ
  solution : List ℕ
  given_mask : List Bool
  cells : List (Option ℕ)
  score : ℤ
  coins : ℤ
  last_correct_time : Option ℚ
  current_diff : Tier
  unlocked : List Tier
  owned_skins : List String
  active_skin : String
deriving DecidableEq, Repr

/-- `is_completed`: `all(self.puzzle[i] == self.solution[i] for i in range(81))`. -/
def is_completed (s : AppState) : Bool :=
  (List.range 81).all (fun i => s.puzzle.getD i 0 == s.solution.getD i 0)

/-- `on_win` (without the message box and `save_state`): add the completion
bonus for `current_diff` to `coins`, and append the successor tier to
`unlocked` when there is one and it is not yet unlocked.  `stop_timer` is
presentation-only. -/
def on_win (s : AppState) : AppState :=
  let s1 := { s with coins := s.coins + bonusOf s.current_diff }
  match successor s1.current_diff with
  | some nd => if nd ∈ s1.unlocked then s1 else { s1 with unlocked := s1.unlocked ++ [nd] }
  | none => s1

/-- `new_game(diff)` with the record picked by `random.choice(PUZZLES[diff])`
passed explicitly, followed by `populate_grid` (which fills the widgets from
the puzzle and sets `last_correct_time = time.time()`).  `start_timer` is
presentation-only. -/
def new_game (s : AppState) (rec : PuzzleRecord) (now : ℚ) : AppState :=
  { s with puzzle := rec.puzzle,
           solution := rec.solution,
           given_mask := rec.puzzle.map (fun v => v != 0),
           score := 0,
           cells := rec.puzzle.map (fun v => if v = 0 then none else some v),
           last_correct_time := some now }

/-- `clear_selected` at cell `idx`: no-op on a given cell, otherwise empties
the entry widget (the board arrays are untouched). -/
def clear_selected (s : AppState) (idx : ℕ) : AppState :=
  if s.given_mask.getD idx false then s
  else { s with cells := s.cells.set idx none }

/-- Result of `check_selected`, recording for a correct entry the points and
coins added by that entry. -/
inductive CheckResult where
  | alreadyGiven
  | invalidEntry
  | correct (pts coinsEarned : ℤ)
  | incorrect
deriving DecidableEq, Repr

/-- `pts = max(1, 20 - int(delta))` for `delta = now - (last_correct_time or now)`. -/
def entry_points (s : AppState) (now : ℚ) : ℤ :=
  max 1 (20 - truncInt (now - orNow s.last_correct_time now))

/-- The state mutation of `check_selected`'s correct branch (lines 343-363):
update `last_correct_time`, add points to `score` and `pts // 5` to `coins`,
commit the guess to `puzzle` and mark the cell given. -/
def commitCorrect (s : AppState) (idx guess : ℕ) (now : ℚ) : AppState :=
  { s with last_correct_time := some now,
           score := s.score + entry_points s now,
           coins := s.coins + Int.fdiv (entry_points s now) 5,
           puzzle := s.puzzle.set idx guess,
           given_mask := s.given_mask.set idx true }

/-- `check_selected` at the selected cell `idx` at time `now`: reject given
cells and empty/non-digit entries; on a correct guess commit it (and run
`on_win` when the board is complete); on a wrong guess apply the
`max(0, score - 1)` penalty. -/
def check_selected (s : AppState) (idx : ℕ) (now : ℚ) : CheckResult × AppState :=
  if s.given_mask.getD idx false then (CheckResult.alreadyGiven, s)
  else
    match s.cells.getD idx none with
    | none => (CheckResult.invalidEntry, s)
    | some guess =>
      if guess = s.solution.getD idx 0 then
        let s1 := commitCorrect s idx guess now
        if is_completed s1 then
          (CheckResult.correct (entry_points s now) (Int.fdiv (entry_points s now) 5), on_win s1)
        else
          (CheckResult.correct (entry_points s now) (Int.fdiv (entry_points s now) 5), s1)
      else (CheckResult.incorrect, { s with score := max 0 (s.score - 1) })

/-- `empties = [i for i in range(81) if not self.given_mask[i]]` in `give_hint`. -/
def empties (s : AppState) : List ℕ :=
  (List.range 81).filter (fun i => !(s.given_mask.getD i false))

/-- `give_hint` with `random.choice` modelled by the `pick` oracle: if no
cell is unsolved, return unchanged; otherwise reveal the solution at the
picked index, apply the `max(0, score - 5)` penalty, and run `on_win` when
the board is complete. -/
def give_hint (s : AppState) (pick : List ℕ → ℕ) : AppState :=
  if empties s = [] then s
  else
    let i := pick (empties s)
    let val := s.solution.getD i 0
    let s1 := { s with cells := s.cells.set i (some val),
                       puzzle := s.puzzle.set i val,
                       given_mask := s.given_mask.set i true,
                       score := max 0 (s.score - 5) }
    if is_completed s1 then on_win s1 else s1

/-- Result of a tier selection (`on_diff_change`). -/
inductive SelectResult where
  | allowed
  | locked (fallback : Tier)
deriving DecidableEq, Repr

/-- `on_diff_change`: the combobox has already set `current_diff` to `diff`
when the handler runs.  A locked tier is rejected (message box) and
`current_diff` reverts to `unlocked[-1]`; an unlocked tier starts a new game
of that tier with the record `rec` picked from its table. -/
def on_diff_change (s : AppState) (diff : Tier) (rec : PuzzleRecord) (now : ℚ) :
    SelectResult × AppState :=
  let s0 := { s with current_diff := diff }
  if diff ∈ s0.unlocked then (SelectResult.allowed, new_game s0 rec now)
  else
    let fb := s0.unlocked.getLastD Tier.easy
    (SelectResult.locked fb, { s0 with current_diff := fb })

/-- Result of a purchase attempt. -/
inductive BuyResult where
  | purchased
  | insufficientFunds
  | alreadyOwned
deriving DecidableEq, Repr

/-- `buy_skin(name, price)` (without message boxes, `save_state` and the shop
window refresh): reject when `coins < price`, otherwise deduct the price and
append the skin to `owned_skins`. -/
def buy_skin (s : AppState) (name : String) (price : ℤ) : BuyResult × AppState :=
  if s.coins < price then (BuyResult.insufficientFunds, s)
  else (BuyResult.purchased,
        { s with coins := s.coins - price, owned_skins := s.owned_skins ++ [name] })

/-- The shop-level purchase flow of `open_shop` (lines 436-452): for
"Classic" and for skins already in `owned_skins` the window offers only an
Activate button, so no purchase is executed — modelled as `alreadyOwned`;
only an unowned skin reaches `buy_skin`, at its `SKIN_PRICES` price. -/
def shop_buy (s : AppState) (name : String) : BuyResult × AppState :=
  if name = "Classic" ∨ name ∈ s.owned_skins then (BuyResult.alreadyOwned, s)
  else buy_skin s name (priceOf name)

/-- A fully-defaulted persisted state, the value of `DEFAULT_SAVE` and the
shape returned by `load_state`. -/
structure SaveData where
  coins : ℤ
  unlocked : List Tier
  owned_skins : List String
  active_skin : String
deriving DecidableEq, Repr

/-- `DEFAULT_SAVE`. -/
def DEFAULT_SAVE : SaveData :=
  { coins := 0, unlocked := [Tier.easy], owned_skins := ["Classic"],
    active_skin := "Classic" }

/-- A parsed save file: each of the four known keys may be missing. -/
structure PartialSave where
  coins : Option ℤ
  unlocked : Option (List Tier)
  owned_skins : Option (List String)
  active_skin : Option String
deriving DecidableEq, Repr

/-- `load_state`: `none` models a missing file or any exception while reading,
parsing or key-filling (the whole body sits in one `try`), which yields
`DEFAULT_SAVE.copy()`; a parsed dictionary has each missing key back-filled
from `DEFAULT_SAVE` and each present key kept. -/
def load_state : Option PartialSave → SaveData
  | none => DEFAULT_SAVE
  | some d =>
    { coins := d.coins.getD DEFAULT_SAVE.coins,
      unlocked := d.unlocked.getD DEFAULT_SAVE.unlocked,
      owned_skins := d.owned_skins.getD DEFAULT_SAVE.owned_skins,
      active_skin := d.active_skin.getD DEFAULT_SAVE.active_skin }

/-- The `PuzzleRecord` invariant of the data model: both grids have 81 cells
and every pre-filled digit of the puzzle equals the solution digit. -/
def PuzzleRecordInv (r : PuzzleRecord) : Prop :=
  r.puzzle.length = 81 ∧ r.solution.length = 81 ∧
    ∀ i, i < 81 → r.puzzle.getD i 0 ≠ 0 → r.puzzle.getD i 0 = r.solution.getD i 0

instance (r : PuzzleRecord) : Decidable (PuzzleRecordInv r) := by
  unfold PuzzleRecordInv
  infer_instance

/-- The board invariant: the three board arrays have 81 cells, and every cell
marked given holds its solution digit. -/
def BoardInv (s : AppState) : Prop :=
  s.puzzle.length = 81 ∧ s.solution.length = 81 ∧ s.given_mask.length = 81 ∧
    ∀ i, i < 81 → s.given_mask.getD i false = true → s.puzzle.getD i 0 = s.solution.getD i 0

theorem getD_set {α : Type} (l : List α) (i j : ℕ) (a d : α) :
    (l.set i a).getD j d = if i = j ∧ i < l.length then a else l.getD j d := by
  induction l generalizing i j with
  | nil => simp [List.getD_nil]
  | cons x xs ih =>
    cases i with
    | zero =>
      cases j with
      | zero => simp [List.getD_cons_zero]
      | succ j => simp [List.getD_cons_succ]
    | succ i =>
      cases j with
      | zero => simp [List.getD_cons_zero]
      | succ j =>
        simp only [List.set, List.getD_cons_succ, ih, List.length_cons]
        simp [Nat.succ_lt_succ_iff]

theorem getD_map_ne_zero (l : List ℕ) (i : ℕ) :
    ((l.map (fun v => v != 0)).getD i false = true) ↔ l.getD i 0 ≠ 0 := by
  induction l generalizing i with
  | nil => simp [List.getD_nil]
  | cons x xs ih =>
    cases i with
    | zero => simp [List.getD_cons_zero]
    | succ i => simpa [List.getD_cons_succ] using ih i

/-- `on_win` only touches `coins` and `unlocked`: all board and scoring
fields, and the selected tier, are unchanged. -/
theorem on_win_frame (s : AppState) :
    (on_win s).puzzle = s.puzzle ∧ (on_win s).solution = s.solution ∧
    (on_win s).given_mask = s.given_mask ∧ (on_win s).cells = s.cells ∧
    (on_win s).score = s.score ∧ (on_win s).last_correct_time = s.last_correct_time ∧
    (on_win s).current_diff = s.current_diff ∧ (on_win s).owned_skins = s.owned_skins := by
  unfold on_win
  cases h : successor s.current_diff with
  | none => simp [h]
  | some nd =>
    by_cases hm : nd ∈ s.unlocked <;> simp [h, hm]

theorem on_win_coins (s : AppState) :
    (on_win s).coins = s.coins + bonusOf s.current_diff := by
  unfold on_win
  cases h : successor s.current_diff with
  | none => simp [h]
  | some nd =>
    by_cases hm : nd ∈ s.unlocked <;> simp [h, hm]

theorem on_win_unlocked_new (s : AppState) (nd : Tier)
    (h : successor s.current_diff = some nd) (hn : nd ∉ s.unlocked) :
    (on_win s).unlocked = s.unlocked ++ [nd] := by
  unfold on_win
  simp [h, hn]

/-- An engine state with an empty board, used to instantiate theorems at
concrete inputs. -/
def baseState : AppState :=
  { puzzle := [], solution := [], given_mask := [], cells := [], score := 0,
    coins := 0, last_correct_time := none, current_diff := Tier.easy,
    unlocked := [Tier.easy], owned_skins := ["Classic"], active_skin := "Classic" }

def sC1 : AppState := { baseState with coins := 100, owned_skins := ["Classic", "Ocean"] }

def sShop40 : AppState := { baseState with coins := 40 }

def sShop100 : AppState := { baseState with coins := 100 }

def sC8 : AppState :=
  { baseState with puzzle := [5], solution := [5], given_mask := [true], cells := [some 5],
                   score := 3, coins := 9, last_correct_time := some 2 }

/-- Claim C1, as frozen, is false of `buy_skin`: called on an item already in
`owned_skins` with a sufficient balance, `buy_skin` deducts the price again
and appends a duplicate entry instead of rejecting with `AlreadyOwned`. -/
theorem C1_counterexample :
    "Ocean" ∈ sC1.owned_skins ∧
    (buy_skin sC1 "Ocean" 60).1 ≠ BuyResult.alreadyOwned ∧
    (buy_skin sC1 "Ocean" 60).2.coins = sC1.coins - 60 ∧
    (buy_skin sC1 "Ocean" 60).2.owned_skins = ["Classic", "Ocean", "Ocean"] := by
  decide

/-- Claim C1 (amended): the `AlreadyOwned` rejection with no mutation holds
one level up, in the shop flow — `open_shop` offers a Buy action only for
unowned skins, so through the shop an owned item is always rejected and no
state changes; `buy_skin` itself checks only funds. -/
theorem C1_shop_flow_already_owned (s : AppState) (name : String)
    (h : name ∈ s.owned_skins) :
    shop_buy s name = (BuyResult.alreadyOwned, s) := by
  simp [shop_buy, h]

theorem C1_witness :
    "Ocean" ∈ sC1.owned_skins ∧ shop_buy sC1 "Ocean" = (BuyResult.alreadyOwned, sC1) :=
  ⟨by decide, C1_shop_flow_already_owned sC1 "Ocean" (by decide)⟩

/-- Claim C4: the completion bonus is 20/40/60 coins for Easy/Medium/Hard and
is added to `coins`; a successor tier not yet unlocked is appended; and a
second completion of the same tier pays the bonus again. -/
theorem C4_on_win_bonus (s : AppState) :
    bonusOf Tier.easy = 20 ∧ bonusOf Tier.medium = 40 ∧ bonusOf Tier.hard = 60 ∧
    (on_win s).coins = s.coins + bonusOf s.current_diff ∧
    (∀ nd, successor s.current_diff = some nd → nd ∉ s.unlocked →
        (on_win s).unlocked = s.unlocked ++ [nd]) ∧
    (on_win (on_win s)).coins = s.coins + 2 * bonusOf s.current_diff := by
  refine ⟨rfl, rfl, rfl, on_win_coins s, fun nd h hn => on_win_unlocked_new s nd h hn, ?_⟩
  rw [on_win_coins, (on_win_frame s).2.2.2.2.2.2.1, on_win_coins]
  ring

theorem C4_witness :
    successor baseState.current_diff = some Tier.medium ∧
    Tier.medium ∉ baseState.unlocked ∧
    (on_win baseState).unlocked = baseState.unlocked ++ [Tier.medium] :=
  ⟨by decide, by decide, (C4_on_win_bonus baseState).2.2.2.2.1 Tier.medium (by decide) (by decide)⟩

/-- Claim C5: a missing or unparseable save file loads as the canonical
default, and a parsed file has exactly its missing fields back-filled with
defaults while every present field is preserved. -/
theorem C5_load_state_defaults (d : PartialSave) :
    load_state none = DEFAULT_SAVE ∧
    (d.coins = none → (load_state (some d)).coins = DEFAULT_SAVE.coins) ∧
    (∀ c, d.coins = some c → (load_state (some d)).coins = c) ∧
    (d.unlocked = none → (load_state (some d)).unlocked = DEFAULT_SAVE.unlocked) ∧
    (∀ u, d.unlocked = some u → (load_state (some d)).unlocked = u) ∧
    (d.owned_skins = none → (load_state (some d)).owned_skins = DEFAULT_SAVE.owned_skins) ∧
    (∀ o, d.owned_skins = some o → (load_state (some d)).owned_skins = o) ∧
    (d.active_skin = none → (load_state (some d)).active_skin = DEFAULT_SAVE.active_skin) ∧
    (∀ a, d.active_skin = some a → (load_state (some d)).active_skin = a) := by
  refine ⟨rfl, ?_, ?_, ?_, ?_, ?_, ?_, ?_, ?_⟩ <;>
    first
      | (intro h; simp [load_state, h])
      | (intro x h; simp [load_state, h])

def dC5 : PartialSave :=
  { coins := some 7, unlocked := none,
    owned_skins := some ["Classic", "Ocean"], active_skin := none }

theorem C5_witness :
    dC5.coins = some 7 ∧ (load_state (some dC5)).coins = 7 ∧
    dC5.unlocked = none ∧ (load_state (some dC5)).unlocked = DEFAULT_SAVE.unlocked :=
  ⟨rfl, (C5_load_state_defaults dC5).2.2.1 7 rfl, rfl,
   (C5_load_state_defaults dC5).2.2.2.1 rfl⟩

/-- Claim C6: with `coins < price` a purchase is rejected with
`InsufficientFunds` and nothing changes; with a sufficient balance (and an
unowned item) exactly the price is deducted and the item is appended to
`owned_skins`. -/
theorem C6_buy_skin_funds (s : AppState) (name : String) (price : ℤ) :
    (s.coins < price → buy_skin s name price = (BuyResult.insufficientFunds, s)) ∧
    (price ≤ s.coins → name ∉ s.owned_skins →
      (buy_skin s name price).1 = BuyResult.purchased ∧
      (buy_skin s name price).2.coins = s.coins - price ∧
      (buy_skin s name price).2.owned_skins = s.owned_skins ++ [name]) := by
  constructor
  · intro h
    simp [buy_skin, h]
  · intro h _
    simp [buy_skin, not_lt.mpr h]

theorem C6_witness :
    sShop40.coins < 60 ∧
    buy_skin sShop40 "Ocean" 60 = (BuyResult.insufficientFunds, sShop40) ∧
    (60 : ℤ) ≤ sShop100.coins ∧ "Ocean" ∉ sShop100.owned_skins ∧
    (buy_skin sShop100 "Ocean" 60).2.coins = sShop100.coins - 60 :=
  ⟨by decide, (C6_buy_skin_funds sShop40 "Ocean" 60).1 (by decide), by decide, by decide,
   ((C6_buy_skin_funds sShop100 "Ocean" 60).2 (by decide) (by decide)).2.1⟩

/-- Claim C8: checking a cell whose `given_mask` is true returns
`AlreadyGiven` and leaves the whole state — board, score, coins,
`last_correct_time` — unchanged. -/
theorem C8_check_given_noop (s : AppState) (idx : ℕ) (now : ℚ)
    (h : s.given_mask.getD idx false = true) :
    check_selected s idx now = (CheckResult.alreadyGiven, s) := by
  unfold check_selected
  rw [h]
  simp

theorem C8_witness :
    sC8.given_mask.getD 0 false = true ∧
    check_selected sC8 0 5 = (CheckResult.alreadyGiven, sC8) :=
  ⟨by decide, C8_check_given_noop sC8 0 5 (by decide)⟩

theorem truncInt_eq_floor (q : ℚ) (h : 0 ≤ q) : truncInt q = ⌊q⌋ := by
  unfold truncInt
  exact if_pos h

/-- A state mid-game used to instantiate the scoring claim: two open cells,
the first about to be answered correctly. -/
def sC2 : AppState :=
  { baseState with puzzle := [0, 0], solution := [5, 6],
                   given_mask := [false, false], cells := [some 5, none],
                   score := 2, coins := 1, last_correct_time := some 3 }

/-- Claim C2: on a correct entry with `delta = now - last_correct_time ≥ 0`,
the points are `max(1, 20 - ⌊delta⌋)`, the coins earned are `points // 5`
(floor division), `score` grows by the points, and `last_correct_time`
becomes `now`.  The hypothesis `hnc` keeps the completion bonus of `on_win`
out of this per-entry account. -/
theorem C2_on_correct (s : AppState) (idx g : ℕ) (now t : ℚ)
    (hmask : s.given_mask.getD idx false = false)
    (hcell : s.cells.getD idx none = some g)
    (hg : g = s.solution.getD idx 0)
    (hlast : s.last_correct_time = some t) (ht : t ≠ 0)
    (hdelta : t ≤ now)
    (hnc : is_completed (commitCorrect s idx g now) = false) :
    check_selected s idx now
      = (CheckResult.correct (max 1 (20 - ⌊now - t⌋)) (Int.fdiv (max 1 (20 - ⌊now - t⌋)) 5),
         commitCorrect s idx g now) ∧
    (check_selected s idx now).2.score = s.score + max 1 (20 - ⌊now - t⌋) ∧
    (check_selected s idx now).2.coins = s.coins + Int.fdiv (max 1 (20 - ⌊now - t⌋)) 5 ∧
    (check_selected s idx now).2.last_correct_time = some now := by
  have hep : entry_points s now = max 1 (20 - ⌊now - t⌋) := by
    unfold entry_points orNow
    rw [hlast]
    simp only [ht, if_false]
    rw [truncInt_eq_floor (now - t) (sub_nonneg.mpr hdelta)]
  have hstep : check_selected s idx now
      = (CheckResult.correct (entry_points s now) (Int.fdiv (entry_points s now) 5),
         commitCorrect s idx g now) := by
    unfold check_selected
    rw [hmask, hcell]
    simp only [Bool.false_eq_true, if_false]
    rw [if_pos hg, hnc]
    simp
  refine ⟨by rw [hstep, hep], ?_, ?_, ?_⟩ <;>
    rw [hstep] <;> simp [commitCorrect, hep]

theorem C2_witness :
    sC2.given_mask.getD 0 false = false ∧
    sC2.cells.getD 0 none = some 5 ∧
    (5 : ℕ) = sC2.solution.getD 0 0 ∧
    sC2.last_correct_time = some 3 ∧
    (3 : ℚ) ≠ 0 ∧
    (3 : ℚ) ≤ 10 ∧
    is_completed (commitCorrect sC2 0 5 10) = false ∧
    (check_selected sC2 0 10).2.score = sC2.score + max 1 (20 - ⌊(10 : ℚ) - 3⌋) :=
  ⟨by decide, by decide, by decide, rfl, by decide, by decide, by decide,
   (C2_on_correct sC2 0 5 10 3 (by decide) (by decide) (by decide) rfl (by decide)
     (by decide) (by decide)).2.1⟩

/-- The in-game operations a player can trigger on the running session,
with their explicit time / randomness arguments. -/
inductive Op where
  | check (idx : ℕ) (now : ℚ)
  | clear (idx : ℕ)
  | hint (pick : List ℕ → ℕ)

/-- Dispatch one operation to the corresponding handler. -/
def applyOp (s : AppState) : Op → AppState
  | Op.check idx now => (check_selected s idx now).2
  | Op.clear idx => clear_selected s idx
  | Op.hint pick => give_hint s pick

/-- A whole session suffix: fold the operations over the state. -/
def runOps (s : AppState) (ops : List Op) : AppState :=
  ops.foldl applyOp s

theorem applyOp_score_nonneg (s : AppState) (op : Op) (h : 0 ≤ s.score) :
    0 ≤ (applyOp s op).score := by
  cases op with
  | clear idx =>
    simp only [applyOp, clear_selected]
    split <;> simpa using h
  | check idx now =>
    have hep : (1 : ℤ) ≤ entry_points s now := le_max_left 1 _
    simp only [applyOp, check_selected]
    split
    · simpa using h
    · split
      · simpa using h
      · split
        · split
          · dsimp only
            rw [(on_win_frame _).2.2.2.2.1]
            simp only [commitCorrect]
            exact add_nonneg h (le_trans zero_le_one hep)
          · dsimp only [commitCorrect]
            exact add_nonneg h (le_trans zero_le_one hep)
        · simp
  | hint pick =>
    simp only [applyOp, give_hint]
    split
    · simpa using h
    · split
      · rw [(on_win_frame _).2.2.2.2.1]
        simp
      · simp

/-- Claim C7: the score never goes negative — any sequence of session
operations (checks with their wrong-guess `max(0, score-1)` penalty, hints
with their `max(0, score-5)` penalty, clears) started at a non-negative
score keeps the score non-negative. -/
theorem C7_score_never_negative (s : AppState) (ops : List Op) (h : 0 ≤ s.score) :
    0 ≤ (runOps s ops).score := by
  induction ops generalizing s with
  | nil => simpa [runOps] using h
  | cons op rest ih =>
    have h1 := applyOp_score_nonneg s op h
    simpa [runOps, List.foldl_cons] using ih (applyOp s op) h1

theorem C7_witness :
    0 ≤ baseState.score ∧
    0 ≤ (runOps baseState [Op.hint (fun l => l.headD 0), Op.check 0 5, Op.clear 0]).score :=
  ⟨by decide,
   C7_score_never_negative baseState [Op.hint (fun l => l.headD 0), Op.check 0 5, Op.clear 0]
     (by decide)⟩

/-- The spec invariant on persisted progress: `unlocked` is a nonempty prefix
of the canonical order `[Easy, Medium, Hard]`, starting with Easy. -/
def prefixInv (l : List Tier) : Prop :=
  l = [Tier.easy] ∨ l = [Tier.easy, Tier.medium] ∨ l = [Tier.easy, Tier.medium, Tier.hard]

/-- The first record of the Easy table, the pick `random.choice` can make for
an Easy game. -/
def easyRec : PuzzleRecord := (PUZZLES Tier.easy).getD 0 ⟨[], []⟩

/-- Claim C9: selecting a locked tier is rejected before any game starts and
reverts to `unlocked[-1]`, which under the prefix invariant is the highest
unlocked tier; selecting an unlocked tier starts a new game of that tier. -/
theorem C9_select_tier (s : AppState) (t : Tier) (rec : PuzzleRecord) (now : ℚ)
    (hpre : prefixInv s.unlocked) :
    (t ∉ s.unlocked →
      (on_diff_change s t rec now).1 = SelectResult.locked (s.unlocked.getLastD Tier.easy) ∧
      (on_diff_change s t rec now).2
        = { s with current_diff := s.unlocked.getLastD Tier.easy } ∧
      s.unlocked.getLastD Tier.easy ∈ s.unlocked ∧
      (∀ u ∈ s.unlocked, orderIdx u ≤ orderIdx (s.unlocked.getLastD Tier.easy))) ∧
    (t ∈ s.unlocked →
      (on_diff_change s t rec now).1 = SelectResult.allowed ∧
      (on_diff_change s t rec now).2 = new_game { s with current_diff := t } rec now) := by
  have hmem : s.unlocked.getLastD Tier.easy ∈ s.unlocked := by
    rcases hpre with h | h | h <;> rw [h] <;> decide
  have hmax : ∀ u ∈ s.unlocked, orderIdx u ≤ orderIdx (s.unlocked.getLastD Tier.easy) := by
    rcases hpre with h | h | h <;> rw [h] <;> decide
  constructor
  · intro hnot
    refine ⟨?_, ?_, hmem, hmax⟩ <;> simp [on_diff_change, hnot]
  · intro hin
    constructor <;> simp [on_diff_change, hin]

theorem C9_witness :
    prefixInv baseState.unlocked ∧ Tier.medium ∉ baseState.unlocked ∧
    (on_diff_change baseState Tier.medium easyRec 0).1
      = SelectResult.locked (baseState.unlocked.getLastD Tier.easy) :=
  ⟨Or.inl rfl, by decide,
   ((C9_select_tier baseState Tier.medium easyRec 0 (Or.inl rfl)).1 (by decide)).1⟩

theorem mem_empties (s : AppState) (i : ℕ) :
    i ∈ empties s ↔ i < 81 ∧ s.given_mask.getD i false = false := by
  unfold empties
  rw [List.mem_filter, List.mem_range]
  simp

theorem empties_eq_nil (s : AppState)
    (h : ∀ i, i < 81 → s.given_mask.getD i false = true) : empties s = [] := by
  unfold empties
  rw [List.filter_eq_nil_iff]
  intro a ha
  rw [List.mem_range] at ha
  simpa using h a ha

theorem give_hint_reveal (s : AppState) (pick : List ℕ → ℕ) (hne : empties s ≠ []) :
    (give_hint s pick).score = max 0 (s.score - 5) ∧
    (give_hint s pick).given_mask = s.given_mask.set (pick (empties s)) true ∧
    (give_hint s pick).puzzle
      = s.puzzle.set (pick (empties s)) (s.solution.getD (pick (empties s)) 0) := by
  simp only [give_hint]
  rw [if_neg hne]
  split
  · exact ⟨by rw [(on_win_frame _).2.2.2.2.1],
           by rw [(on_win_frame _).2.2.1],
           by rw [(on_win_frame _).1]⟩
  · exact ⟨rfl, rfl, rfl⟩

/-- Claim C10: with every cell given, `give_hint` is a complete no-op (in
particular no −5 penalty); otherwise the penalty and the reveal happen
together, at an index drawn from the unsolved cells (here: any index the
choice oracle can return lies in `empties`, hence has `given_mask` false). -/
theorem C10_hint_noop_or_reveal (s : AppState) (pick : List ℕ → ℕ)
    (hpick : ∀ l : List ℕ, l ≠ [] → pick l ∈ l) :
    ((∀ i, i < 81 → s.given_mask.getD i false = true) → give_hint s pick = s) ∧
    (empties s ≠ [] →
      pick (empties s) < 81 ∧
      s.given_mask.getD (pick (empties s)) false = false ∧
      (give_hint s pick).score = max 0 (s.score - 5) ∧
      (give_hint s pick).given_mask = s.given_mask.set (pick (empties s)) true ∧
      (give_hint s pick).puzzle
        = s.puzzle.set (pick (empties s)) (s.solution.getD (pick (empties s)) 0)) := by
  constructor
  · intro hall
    simp only [give_hint]
    rw [if_pos (empties_eq_nil s hall)]
  · intro hne
    have hm := (mem_empties s (pick (empties s))).mp (hpick (empties s) hne)
    obtain ⟨h3, h4, h5⟩ := give_hint_reveal s pick hne
    exact ⟨hm.1, hm.2, h3, h4, h5⟩

/-- The choice oracle used to instantiate randomized operations: always the
head of the candidate list. -/
def pickHead (l : List ℕ) : ℕ := l.headD 0

theorem pickHead_mem : ∀ l : List ℕ, l ≠ [] → pickHead l ∈ l := by
  intro l hl
  cases l with
  | nil => exact absurd rfl hl
  | cons a t => exact List.mem_cons_self a t

def sC10 : AppState :=
  { baseState with puzzle := [0], solution := [7], given_mask := [false],
                   cells := [none], score := 2 }

theorem C10_witness :
    empties sC10 ≠ [] ∧ (give_hint sC10 pickHead).score = max 0 (sC10.score - 5) :=
  ⟨by decide, ((C10_hint_noop_or_reveal sC10 pickHead pickHead_mem).2 (by decide)).2.2.1⟩

theorem setCell_inv (p sol : List ℕ) (m : List Bool) (i g : ℕ)
    (hp : p.length = 81) (hm : m.length = 81)
    (hinv : ∀ j, j < 81 → m.getD j false = true → p.getD j 0 = sol.getD j 0)
    (hg : g = sol.getD i 0) :
    ∀ j, j < 81 → (m.set i true).getD j false = true → (p.set i g).getD j 0 = sol.getD j 0 := by
  intro j hj hmj
  rw [getD_set, hm] at hmj
  rw [getD_set, hp]
  by_cases hc : i = j ∧ i < 81
  · rcases hc with ⟨rfl, hlt⟩
    rw [if_pos ⟨rfl, hlt⟩]
    exact hg
  · rw [if_neg hc] at hmj
    rw [if_neg hc]
    exact hinv j hj hmj

theorem BoardInv_on_win (s : AppState) (h : BoardInv s) : BoardInv (on_win s) := by
  have f := on_win_frame s
  unfold BoardInv
  rw [f.1, f.2.1, f.2.2.1]
  exact h

theorem BoardInv_new_game (s : AppState) (rec : PuzzleRecord) (now : ℚ)
    (h : PuzzleRecordInv rec) : BoardInv (new_game s rec now) := by
  obtain ⟨hp, hs, hinv⟩ := h
  refine ⟨by simpa [new_game] using hp, by simpa [new_game] using hs,
          by simpa [new_game] using hp, ?_⟩
  intro i hi hm
  simp only [new_game] at hm ⊢
  exact hinv i hi ((getD_map_ne_zero rec.puzzle i).mp hm)

theorem BoardInv_commit (s : AppState) (idx g : ℕ) (now : ℚ)
    (h : BoardInv s) (hg : g = s.solution.getD idx 0) :
    BoardInv (commitCorrect s idx g now) := by
  obtain ⟨hp, hs, hm, hinv⟩ := h
  refine ⟨by simpa [commitCorrect] using hp, by simpa [commitCorrect] using hs,
          by simpa [commitCorrect] using hm, ?_⟩
  intro i hi him
  simp only [commitCorrect] at him ⊢
  exact setCell_inv s.puzzle s.solution s.given_mask idx g hp hm hinv hg i hi him

theorem BoardInv_check (s : AppState) (idx : ℕ) (now : ℚ) (h : BoardInv s) :
    BoardInv (check_selected s idx now).2 := by
  simp only [check_selected]
  split
  · exact h
  · split
    · exact h
    · split
      · next hguess =>
        split
        · exact BoardInv_on_win _ (BoardInv_commit s idx _ now h hguess)
        · exact BoardInv_commit s idx _ now h hguess
      · exact ⟨h.1, h.2.1, h.2.2.1, h.2.2.2⟩

theorem BoardInv_clear (s : AppState) (idx : ℕ) (h : BoardInv s) :
    BoardInv (clear_selected s idx) := by
  simp only [clear_selected]
  split
  · exact h
  · exact ⟨h.1, h.2.1, h.2.2.1, h.2.2.2⟩

theorem BoardInv_hint (s : AppState) (pick : List ℕ → ℕ) (h : BoardInv s) :
    BoardInv (give_hint s pick) := by
  obtain ⟨hp, hs, hm, hinv⟩ := h
  have hrev : BoardInv
      { s with cells := s.cells.set (pick (empties s)) (some (s.solution.getD (pick (empties s)) 0)),
               puzzle := s.puzzle.set (pick (empties s)) (s.solution.getD (pick (empties s)) 0),
               given_mask := s.given_mask.set (pick (empties s)) true,
               score := max 0 (s.score - 5) } := by
    refine ⟨by simpa using hp, by simpa using hs, by simpa using hm, ?_⟩
    intro i hi him
    exact setCell_inv s.puzzle s.solution s.given_mask (pick (empties s)) _ hp hm hinv rfl i hi him
  simp only [give_hint]
  split
  · exact ⟨hp, hs, hm, hinv⟩
  · split
    · exact BoardInv_on_win _ hrev
    · exact hrev

/-- Claim C3: assuming the `PuzzleRecord` invariant, `new_game` establishes
the board invariant — every cell marked given holds its solution digit — and
`check_selected`, `clear_selected` and `give_hint` all preserve it, so it
holds from board creation until the board is replaced. -/
theorem C3_board_invariant (s : AppState) :
    (∀ rec now, PuzzleRecordInv rec → BoardInv (new_game s rec now)) ∧
    (∀ idx now, BoardInv s → BoardInv (check_selected s idx now).2) ∧
    (∀ idx, BoardInv s → BoardInv (clear_selected s idx)) ∧
    (∀ pick, BoardInv s → BoardInv (give_hint s pick)) :=
  ⟨fun rec now h => BoardInv_new_game s rec now h,
   fun idx now h => BoardInv_check s idx now h,
   fun idx h => BoardInv_clear s idx h,
   fun pick h => BoardInv_hint s pick h⟩

theorem C3_witness :
    PuzzleRecordInv easyRec ∧ BoardInv (new_game baseState easyRec 0) :=
  ⟨by decide, (C3_board_invariant baseState).1 easyRec 0 (by decide)⟩

end Sudoku
